import Mathlib

set_option maxRecDepth 100000

/-!
Verification of the two utility scripts of this repository against their
specification.

* `download_data.py` (Pipeline A): streams an NDJSON file line by line,
  validates each line as JSON, and writes the first valid lines to a local
  file until a configured ceiling is reached.
* `scraping_covers.py` (Pipeline B): scrolls a playlist page until the row
  count stabilizes, polls each thumbnail element for a usable `src`
  attribute, downloads the image, and crops it to a 16:9 aspect ratio.

Lines of text, JSON validity, DOM attribute reads and HTTP responses are
modelled as opaque data / oracles; the control flow of every loop is
embedded faithfully from the source.
-/

/-! ### Pipeline A: `download_data.py` -/

/-- `MAX_LINES_TO_SAVE = 500` from `download_data.py`. -/
def MAX_LINES_TO_SAVE : Nat := 500

/-- The module-level line loop of `download_data.py`: iterate over the
stream's lines; break as soon as `lines_saved >= MAX_LINES_TO_SAVE`;
otherwise, if the line parses as JSON (`jsonValid`, the `json.loads`
oracle), write it and increment `lines_saved`, else skip it.  The returned
list is the sequence of lines written to the output file, in order. -/
def saveLines {α : Type} (jsonValid : α → Bool) : List α → Nat → List α
  | [], _ => []
  | line :: rest, lines_saved =>
    if MAX_LINES_TO_SAVE ≤ lines_saved then []
    else if jsonValid line then line :: saveLines jsonValid rest (lines_saved + 1)
    else saveLines jsonValid rest lines_saved

lemma saveLines_eq_filter_take {α : Type} (v : α → Bool) :
    ∀ (lines : List α) (saved : Nat),
      saveLines v lines saved = (lines.filter v).take (MAX_LINES_TO_SAVE - saved) := by
  intro lines
  induction lines with
  | nil => intro saved; simp [saveLines]
  | cons line rest ih =>
    intro saved
    by_cases hs : MAX_LINES_TO_SAVE ≤ saved
    · have : MAX_LINES_TO_SAVE - saved = 0 := Nat.sub_eq_zero_of_le hs
      simp [saveLines, hs, this]
    · have hpos : 0 < MAX_LINES_TO_SAVE - saved := by omega
      by_cases hv : v line
      · have : MAX_LINES_TO_SAVE - saved = (MAX_LINES_TO_SAVE - (saved + 1)) + 1 := by omega
        simp [saveLines, hs, hv, List.filter_cons, this, List.take_succ_cons, ih]
      · simp [saveLines, hs, hv, List.filter_cons, ih]

/-- C1: Pipeline A writes at most `MAX_LINES_TO_SAVE` (= 500) lines, and
every written line satisfies the JSON-validity oracle and is one of the
source lines (byte-identical: the very same line value is written). -/
theorem pipelineA_bounded_valid {α : Type} (v : α → Bool) (lines : List α) :
    MAX_LINES_TO_SAVE = 500 ∧
    (saveLines v lines 0).length ≤ MAX_LINES_TO_SAVE ∧
    ∀ l, l ∈ saveLines v lines 0 → v l = true ∧ l ∈ lines := by
  refine ⟨rfl, ?_, ?_⟩
  · rw [saveLines_eq_filter_take]
    simp [List.length_take_le]
  · intro l hl
    rw [saveLines_eq_filter_take] at hl
    have hmem : l ∈ lines.filter v := List.mem_of_mem_take hl
    exact ⟨List.of_mem_filter hmem, List.mem_of_mem_filter hmem⟩

/-- Witness for C1 at a concrete input. -/
theorem pipelineA_bounded_valid_witness :
    (fun n : Nat => decide (n ≠ 1)) 0 = true ∧ (0 : Nat) ∈ [0, 1, 2] :=
  (pipelineA_bounded_valid (fun n : Nat => decide (n ≠ 1)) [0, 1, 2]).2.2 0 (by decide)

/-- JSON-validity oracle of the concrete 600-line example: every line is
valid except the ones at 0-based positions 36 and 199 (1-based 37 and 200). -/
def exampleValid (n : Nat) : Bool := !(n == 36 || n == 199)

/-- C2: Pipeline A writes exactly the first `min (MAX_LINES_TO_SAVE, V)`
valid lines in stream order (`filter` then `take`); on the 600-line example
with malformed lines at 1-based positions 37 and 200 and max = 500, it
writes exactly 500 lines, all drawn from the first 502 source lines. -/
theorem pipelineA_exact {α : Type} (v : α → Bool) (lines : List α) :
    saveLines v lines 0 = (lines.filter v).take MAX_LINES_TO_SAVE ∧
    (saveLines v lines 0).length = min MAX_LINES_TO_SAVE (lines.filter v).length ∧
    (saveLines exampleValid (List.range 600) 0).length = 500 ∧
    saveLines exampleValid (List.range 600) 0 = (List.range 502).filter exampleValid := by
  refine ⟨?_, ?_, ?_, ?_⟩
  · simpa using saveLines_eq_filter_take v lines 0
  · rw [saveLines_eq_filter_take]
    simp
  · rw [saveLines_eq_filter_take]
    decide
  · rw [saveLines_eq_filter_take]
    decide

/-! ### Pipeline B: `crop_to_16_9` of `scraping_covers.py`

An image is modelled as a width together with its list of pixel rows (each
row an opaque value); the height of the image is the number of rows.  PIL's
`img.crop((0, top, width, bottom))` keeps the rows with indices in
`[top, bottom)`, i.e. `(rows.drop top).take (bottom - top)`.  The function
returns the image now stored at the file path together with a flag telling
whether a `save` (an in-place overwrite) happened. -/

structure Image (α : Type) where
  width : Nat
  rows : List α
deriving DecidableEq

/-- Height of an image: the number of pixel rows. -/
def Image.height {α : Type} (img : Image α) : Nat := img.rows.length

/-- `crop_to_16_9` from `scraping_covers.py`: compute
`target_height = width * 9 / 16`; if `height > target_height`, crop away
`height_to_remove // 2` rows at the top and keep rows up to
`bottom_margin = height - (height_to_remove - top_margin)`, overwriting the
file (flag `true`); otherwise leave the file untouched (flag `false`). -/
def crop_to_16_9 {α : Type} (img : Image α) : Image α × Bool :=
  let width := img.width
  let height := img.height
  let target_height := width * 9 / 16
  if target_height < height then
    let height_to_remove := height - target_height
    let top_margin := height_to_remove / 2
    let bottom_margin := height - (height_to_remove - top_margin)
    ({ width := width,
       rows := (img.rows.drop top_margin).take (bottom_margin - top_margin) }, true)
  else (img, false)

lemma crop_to_16_9_of_le {α : Type} (img : Image α)
    (h : img.height ≤ img.width * 9 / 16) : crop_to_16_9 img = (img, false) := by
  simp [crop_to_16_9, Nat.not_lt.mpr h]

lemma crop_to_16_9_height {α : Type} (img : Image α) :
    (crop_to_16_9 img).1.height =
      min img.height (img.width * 9 / 16) := by
  by_cases h : img.width * 9 / 16 < img.height
  · have h' : img.width * 9 / 16 < img.rows.length := h
    simp only [crop_to_16_9, Image.height, if_pos h', List.length_take, List.length_drop]
    omega
  · rw [crop_to_16_9_of_le img (Nat.not_lt.mp h)]
    exact (Nat.min_eq_left (Nat.not_lt.mp h)).symm

lemma crop_to_16_9_width {α : Type} (img : Image α) :
    (crop_to_16_9 img).1.width = img.width := by
  by_cases h : img.width * 9 / 16 < img.height
  · simp [crop_to_16_9, if_pos h]
  · rw [crop_to_16_9_of_le img (Nat.not_lt.mp h)]

/-- C3: when the height exceeds `target = width * 9 / 16`, the crop
produces an image of height exactly `target`, keeping the rows obtained by
trimming `(H - target) / 2` rows from the top and the remaining
`(H - target) - (H - target) / 2` rows from the bottom, and it does write
the file (in-place overwrite flag set). -/
theorem crop_shrinks_to_target {α : Type} (img : Image α)
    (h : img.width * 9 / 16 < img.height) :
    (crop_to_16_9 img).1.height = img.width * 9 / 16 ∧
    (crop_to_16_9 img).1.width = img.width ∧
    (crop_to_16_9 img).1.rows =
      (img.rows.take
        (img.height -
          ((img.height - img.width * 9 / 16) -
            (img.height - img.width * 9 / 16) / 2))).drop
        ((img.height - img.width * 9 / 16) / 2) ∧
    (crop_to_16_9 img).2 = true := by
  have h' : img.width * 9 / 16 < img.rows.length := h
  refine ⟨?_, crop_to_16_9_width img, ?_, ?_⟩
  · rw [crop_to_16_9_height]
    omega
  · simp only [crop_to_16_9, Image.height, if_pos h']
    rw [List.drop_take]
  · simp [crop_to_16_9, Image.height, if_pos h']

/-- Witness for C3: a 16-wide, 10-row image is cropped to 9 rows. -/
theorem crop_shrinks_to_target_witness :
    (16 : Nat) * 9 / 16 < (Image.mk 16 (List.range 10)).height ∧
    (crop_to_16_9 (Image.mk 16 (List.range 10))).1.height = 16 * 9 / 16 :=
  ⟨by decide, (crop_shrinks_to_target (Image.mk 16 (List.range 10)) (by decide)).1⟩

/-- C4: when the height is already at most `target = width * 9 / 16`, the
file is left completely untouched (no write); the write happens exactly
when the height exceeds the target, and the crop never increases the
height. -/
theorem crop_skips_when_narrow {α : Type} (img : Image α) :
    (img.height ≤ img.width * 9 / 16 → crop_to_16_9 img = (img, false)) ∧
    ((crop_to_16_9 img).2 = true ↔ img.width * 9 / 16 < img.height) ∧
    (crop_to_16_9 img).1.height ≤ img.height := by
  refine ⟨crop_to_16_9_of_le img, ?_, ?_⟩
  · by_cases h : img.width * 9 / 16 < img.height
    · simp [crop_to_16_9, if_pos h, h]
    · rw [crop_to_16_9_of_le img (Nat.not_lt.mp h)]
      simpa using h
  · rw [crop_to_16_9_height]
    exact Nat.min_le_left _ _

/-- Witness for C4: a 16-wide, 9-row image (exactly 16:9) is untouched. -/
theorem crop_skips_when_narrow_witness :
    crop_to_16_9 (Image.mk 16 (List.range 9)) = (Image.mk 16 (List.range 9), false) :=
  (crop_skips_when_narrow (Image.mk 16 (List.range 9))).1 (by decide)

/-- C5: `crop_to_16_9` is idempotent — the second application returns the
image unchanged and performs no write, because after one application the
height is at most `width * 9 / 16`. -/
theorem crop_idempotent {α : Type} (img : Image α) :
    crop_to_16_9 (crop_to_16_9 img).1 = ((crop_to_16_9 img).1, false) ∧
    (crop_to_16_9 img).1.height ≤ (crop_to_16_9 img).1.width * 9 / 16 := by
  have hh : (crop_to_16_9 img).1.height ≤ (crop_to_16_9 img).1.width * 9 / 16 := by
    rw [crop_to_16_9_height, crop_to_16_9_width]
    exact Nat.min_le_right _ _
  exact ⟨crop_to_16_9_of_le _ hh, hh⟩

/-! ### Pipeline B: the attribute-polling loop of `scrape_thumbnails`

For one element, `reads k` is the value of `img_element.get_attribute("src")`
at the `k`-th poll (`none` models Python's `None`).  The loop polls up to
5 times with a 1-second `time.sleep` after every unsuccessful poll, breaking
as soon as the value is truthy and does not start with `"data:"`; after the
loop, the element is skipped unless the last read value passes the same
check, and otherwise the value is cleaned with `src.split('?')[0]`. -/

/-- Python's `s.startswith(p)`, expressed on the character sequences of the
two strings. -/
def pyStartsWith (s p : String) : Bool := p.data.isPrefixOf s.data

/-- The acceptance test of the loop: `if src and not src.startswith("data:")`. -/
def srcUsable (src : Option String) : Bool :=
  match src with
  | none => false
  | some s => !(s == "") && !(pyStartsWith s "data:")

/-- Python's `src.split('?')[0]`: the characters of the value up to (and
excluding) its first `'?'`. -/
def cleanQuery (s : String) : String := String.mk (s.data.takeWhile (fun c => c != '?'))

/-- The polling loop: `for attempt in range(5): src = read; if ok: break;
time.sleep(1)`.  Returns the final value of `src` together with the number
of `time.sleep(1)` calls executed. -/
def pollSrc (reads : Nat → Option String) : Nat → Nat → Option String → Option String × Nat
  | _, 0, src => (src, 0)
  | attempt, fuel + 1, _ =>
    let src := reads attempt
    if srcUsable src then (src, 0)
    else
      let r := pollSrc reads (attempt + 1) fuel src
      (r.1, r.2 + 1)

/-- Processing of one located element: run the polling loop (initial
`src = None`, 5 attempts), then skip (`none`) if
`not src or src.startswith("data:")`, else return `src.split('?')[0]`. -/
def processElement (reads : Nat → Option String) : Option String :=
  match (pollSrc reads 0 5 none).1 with
  | none => none
  | some s => if s == "" || pyStartsWith s "data:" then none else some (cleanQuery s)

lemma pollSrc_sleeps_le (reads : Nat → Option String) :
    ∀ (fuel attempt : Nat) (src : Option String),
      (pollSrc reads attempt fuel src).2 ≤ fuel := by
  intro fuel
  induction fuel with
  | zero => intro attempt src; simp [pollSrc]
  | succ f ih =>
    intro attempt src
    by_cases h : srcUsable (reads attempt)
    · simp [pollSrc, h]
    · simpa [pollSrc, h] using ih (attempt + 1) (reads attempt)

lemma pollSrc_all_fail (reads : Nat → Option String) :
    ∀ (fuel attempt : Nat) (src : Option String),
      (∀ j, j < fuel → srcUsable (reads (attempt + j)) = false) →
      srcUsable src = false →
      srcUsable (pollSrc reads attempt fuel src).1 = false ∧
      (pollSrc reads attempt fuel src).2 = fuel := by
  intro fuel
  induction fuel with
  | zero => intro attempt src _ hsrc; simpa [pollSrc] using hsrc
  | succ f ih =>
    intro attempt src hall hsrc
    have h0 : srcUsable (reads attempt) = false := by
      simpa using hall 0 (Nat.succ_pos f)
    have hrest : ∀ j, j < f → srcUsable (reads (attempt + 1 + j)) = false := by
      intro j hj
      have := hall (j + 1) (by omega)
      simpa [Nat.add_assoc, Nat.add_comm 1 j] using this
    have := ih (attempt + 1) (reads attempt) hrest h0
    simp [pollSrc, h0, this.1, this.2]

lemma pollSrc_first_success (reads : Nat → Option String) :
    ∀ (k fuel attempt : Nat) (src : Option String),
      k < fuel →
      srcUsable (reads (attempt + k)) = true →
      (∀ j, j < k → srcUsable (reads (attempt + j)) = false) →
      pollSrc reads attempt fuel src = (reads (attempt + k), k) := by
  intro k
  induction k with
  | zero =>
    intro fuel attempt src hk hok _
    obtain ⟨f, rfl⟩ : ∃ f, fuel = f + 1 := ⟨fuel - 1, by omega⟩
    simpa [pollSrc] using hok
  | succ k ih =>
    intro fuel attempt src hk hok hfail
    obtain ⟨f, rfl⟩ : ∃ f, fuel = f + 1 := ⟨fuel - 1, by omega⟩
    have h0 : srcUsable (reads attempt) = false := by
      simpa using hfail 0 (Nat.succ_pos k)
    have hok' : srcUsable (reads (attempt + 1 + k)) = true := by
      simpa [Nat.add_assoc, Nat.add_comm 1 k] using hok
    have hfail' : ∀ j, j < k → srcUsable (reads (attempt + 1 + j)) = false := by
      intro j hj
      have := hfail (j + 1) (by omega)
      simpa [Nat.add_assoc, Nat.add_comm 1 j] using this
    have := ih f (attempt + 1) (reads attempt) (by omega) hok' hfail'
    simp [pollSrc, h0, this, Nat.add_assoc, Nat.add_comm 1 k]

lemma srcUsable_false_skip (reads : Nat → Option String)
    (h : srcUsable (pollSrc reads 0 5 none).1 = false) :
    processElement reads = none := by
  unfold processElement
  cases hs : (pollSrc reads 0 5 none).1 with
  | none => rfl
  | some s =>
    rw [hs] at h
    simp only [srcUsable, Bool.and_eq_false_iff, Bool.not_eq_false'] at h
    rcases h with h | h <;> simp [h]

/-- C6: the polling loop sleeps at most 5 seconds per element; the element
is accepted (some cleaned value is produced) iff one of the 5 reads is
usable (non-empty and not starting with `"data:"`), and in that case the
result is `src.split('?')[0]` of the first usable read, reached after
exactly as many 1-second sleeps as there were failed reads before it;
otherwise the element is skipped (`none`). -/
theorem attributePoller_spec (reads : Nat → Option String) :
    (pollSrc reads 0 5 none).2 ≤ 5 ∧
    ((processElement reads).isSome ↔ ∃ k, k < 5 ∧ srcUsable (reads k) = true) ∧
    (∀ k, k < 5 → srcUsable (reads k) = true →
      (∀ j, j < k → srcUsable (reads j) = false) →
      processElement reads = some (cleanQuery ((reads k).getD "")) ∧
      (pollSrc reads 0 5 none).2 = k) := by
  have hfirst : ∀ k, k < 5 → srcUsable (reads k) = true →
      (∀ j, j < k → srcUsable (reads j) = false) →
      processElement reads = some (cleanQuery ((reads k).getD "")) ∧
      (pollSrc reads 0 5 none).2 = k := by
    intro k hk hok hfail
    have hpoll := pollSrc_first_success reads k 5 0 none
      (by omega) (by simpa using hok) (by simpa using hfail)
    rw [Nat.zero_add] at hpoll
    constructor
    · unfold processElement
      rw [hpoll]
      cases hr : reads k with
      | none => rw [hr] at hok; simp [srcUsable] at hok
      | some s =>
        rw [hr] at hok
        simp only [srcUsable, Bool.and_eq_true, Bool.not_eq_true'] at hok
        simp [hok.1, hok.2]
    · rw [hpoll]
  refine ⟨pollSrc_sleeps_le reads 5 0 none, ⟨?_, ?_⟩, hfirst⟩
  · intro hsome
    by_contra hnone
    push_neg at hnone
    have hall : ∀ j, j < 5 → srcUsable ((0 : Nat) + j |> reads) = false := by
      intro j hj
      simpa using Bool.eq_false_iff.mpr
        (fun hc => absurd hc (by simpa using hnone j hj))
    have := pollSrc_all_fail reads 5 0 none (by simpa using hall) rfl
    rw [srcUsable_false_skip reads this.1] at hsome
    simp at hsome
  · rintro ⟨k, hk, hok⟩
    have hex : ∃ m, srcUsable (reads m) = true := ⟨k, hok⟩
    have hm5 : Nat.find hex < 5 := lt_of_le_of_lt (Nat.find_min' hex hok) hk
    have hmok : srcUsable (reads (Nat.find hex)) = true := Nat.find_spec hex
    have hmmin : ∀ j, j < Nat.find hex → srcUsable (reads j) = false :=
      fun j hj => Bool.eq_false_iff.mpr (Nat.find_min hex hj)
    rw [(hfirst (Nat.find hex) hm5 hmok hmmin).1]
    rfl

/-- Concrete read sequence for the C6 witness: a `data:` placeholder, then
an empty value, then a real URL with a query component. -/
def exampleReads (k : Nat) : Option String :=
  if k = 0 then some "data:image/gif;base64,R0lGOD"
  else if k = 1 then some ""
  else if k = 2 then some "https://i.ytimg.com/vi/abc/hqdefault.jpg?sqp=xyz"
  else none

/-- Witness for C6: the third read is the first usable one, so the element
is accepted with the query component stripped, after exactly 2 sleeps. -/
theorem attributePoller_spec_witness :
    processElement exampleReads = some "https://i.ytimg.com/vi/abc/hqdefault.jpg" ∧
    (pollSrc exampleReads 0 5 none).2 = 2 := by
  have h := (attributePoller_spec exampleReads).2.2 2 (by decide) (by decide) (by decide)
  refine ⟨h.1.trans ?_, h.2⟩
  decide

/-! ### Pipeline B: `download_file` of `scraping_covers.py`

The HTTP transport is an oracle `http : String → HttpResult` giving, for a
URL, either a transport-level failure (connection error, timeout — a
`requests.exceptions.RequestException` before a response is available) or a
response with a status code and a body.  `requests`' `raise_for_status`
raises exactly for status codes in `[400, 600)`, and the raised `HTTPError`
is a `RequestException`, so both failure shapes are caught by the single
`except` clause, which logs and returns `None`.  The result records the
returned value, whether an HTTP request was issued at all, and the file
written (path and content), if any. -/

/-- Outcome of the HTTP GET for a given URL. -/
inductive HttpResult where
  | transportError : HttpResult
  | response : Nat → List Nat → HttpResult
deriving DecidableEq

/-- `OUTPUT_DIR = "youtube_thumbnails"` from `scraping_covers.py`. -/
def OUTPUT_DIR : String := "youtube_thumbnails"

/-- Observable effect of one `download_file` call. -/
structure DownloadOutcome where
  result : Option String
  requested : Bool
  written : Option (String × List Nat)
deriving DecidableEq

/-- Python's `url.split("/")[-1]`: the part after the last `'/'`. -/
def lastUrlPart (u : String) : String :=
  String.mk ((u.data.reverse.takeWhile (fun c => c != '/')).reverse)

/-- The destination path `os.path.join(OUTPUT_DIR, local_filename)` with the
default filename `url.split("/")[-1]`. -/
def downloadPath (u : String) (local_filename : Option String) : String :=
  OUTPUT_DIR ++ "/" ++ local_filename.getD (lastUrlPart u)

/-- `download_file` from `scraping_covers.py`: return `None` at once on a
falsy URL (Python `None` or `""`) without touching the network or the disk;
otherwise issue the GET, let `raise_for_status` fail on a 4xx/5xx status,
write the body on success, and convert any `RequestException` (transport
error or bad status) into a logged `None`. -/
def download_file (http : String → HttpResult) (url : Option String)
    (local_filename : Option String) : DownloadOutcome :=
  match url with
  | none => ⟨none, false, none⟩
  | some u =>
    if u == "" then ⟨none, false, none⟩
    else
      let local_path := downloadPath u local_filename
      match http u with
      | .transportError => ⟨none, true, none⟩
      | .response status body =>
        if 400 ≤ status ∧ status < 600 then ⟨none, true, none⟩
        else ⟨some local_path, true, some (local_path, body)⟩

/-- C7: for a non-empty URL, `download_file` returns the destination path
and writes the body exactly when the GET yields a response with a
non-4xx/5xx status; a transport error or a 4xx/5xx status is absorbed (no
exception escapes — the function is total) and yields `None` with no file
written, so the per-item batch continues. -/
theorem download_file_status (http : String → HttpResult) (u : String)
    (fn : Option String) (hu : ¬ (u == "") = true) :
    (∀ status body, http u = .response status body → ¬(400 ≤ status ∧ status < 600) →
      download_file http (some u) fn =
        ⟨some (downloadPath u fn), true, some (downloadPath u fn, body)⟩) ∧
    (http u = .transportError → download_file http (some u) fn = ⟨none, true, none⟩) ∧
    (∀ status body, http u = .response status body → 400 ≤ status → status < 600 →
      download_file http (some u) fn = ⟨none, true, none⟩) := by
  refine ⟨?_, ?_, ?_⟩
  · intro status body hresp hok
    simp [download_file, hu, hresp, hok]
  · intro herr
    simp [download_file, hu, herr]
  · intro status body hresp h4 h6
    simp [download_file, hu, hresp, h4, h6]

/-- Witness for C7: a 200-status response is written to the output path. -/
theorem download_file_status_witness :
    download_file (fun _ => .response 200 [255, 216]) (some "https://i.ytimg.com/vi/abc/hqdefault.jpg")
        (some "3_thumbnail.jpg") =
      ⟨some "youtube_thumbnails/3_thumbnail.jpg", true,
        some ("youtube_thumbnails/3_thumbnail.jpg", [255, 216])⟩ := by
  have h := (download_file_status (fun _ => .response 200 [255, 216])
    "https://i.ytimg.com/vi/abc/hqdefault.jpg" (some "3_thumbnail.jpg") (by decide)).1
    200 [255, 216] rfl (by omega)
  rw [h]
  rfl

/-- C10: on a falsy URL (Python `None` or the empty string) `download_file`
returns `None` immediately: no HTTP request is issued and no file is
written. -/
theorem download_file_empty_url (http : String → HttpResult)
    (fn : Option String) (url : Option String)
    (h : url = none ∨ url = some "") :
    download_file http url fn = ⟨none, false, none⟩ := by
  rcases h with rfl | rfl
  · rfl
  · rfl

/-- Witness for C10 at the empty-string URL. -/
theorem download_file_empty_url_witness :
    download_file (fun _ => .response 200 []) (some "") none = ⟨none, false, none⟩ :=
  download_file_empty_url (fun _ => .response 200 []) none (some "") (Or.inr rfl)

/-! ### Pipeline B: `scroll_to_end` of `scraping_covers.py`

`counts t` is the number of elements matching `VIDEO_ROW_SELECTOR` observed
at the `t`-th polling attempt (an oracle for the rendered page).  The loop
keeps `last_video_count` (the largest count seen so far) and
`consecutive_same_count` (the stall counter), and runs while the stall
counter is below `max_attempts = 10`. -/

/-- `max_attempts = 10` from `scroll_to_end`. -/
def max_attempts : Nat := 10

/-- One iteration of the loop body on the state
`(last_video_count, consecutive_same_count)` when the observed count is
`c`: a strictly larger count is remembered and resets the stall counter to
zero; otherwise the stall counter is incremented. -/
def scrollStep (last stall c : Nat) : Nat × Nat :=
  if last < c then (c, 0) else (last, stall + 1)

/-- The state of the loop before attempt `t`, starting from
`last_video_count = 0`, `consecutive_same_count = 0`. -/
def scrollState (counts : Nat → Nat) : Nat → Nat × Nat
  | 0 => (0, 0)
  | t + 1 => scrollStep (scrollState counts t).1 (scrollState counts t).2 (counts t)

/-- The `while consecutive_same_count < max_attempts` loop of
`scroll_to_end`, with explicit fuel; returns the number of polling attempts
performed when the loop exits within the fuel. -/
def scroll_to_end (counts : Nat → Nat) : Nat → Nat → Nat → Nat → Option Nat
  | 0, _, _, _ => none
  | fuel + 1, t, last, stall =>
    if stall < max_attempts then
      let c := counts t
      if last < c then scroll_to_end counts fuel (t + 1) c 0
      else scroll_to_end counts fuel (t + 1) last (stall + 1)
    else some t

/-- The largest row count observed before attempt `t` (0 initially): the
value of `last_video_count` when attempt `t` starts. -/
def runningMax (counts : Nat → Nat) : Nat → Nat
  | 0 => 0
  | t + 1 => max (runningMax counts t) (counts t)

lemma scrollState_fst (counts : Nat → Nat) :
    ∀ t, (scrollState counts t).1 = runningMax counts t := by
  intro t
  induction t with
  | zero => rfl
  | succ t ih =>
    simp only [scrollState, scrollStep, runningMax, ih]
    by_cases h : runningMax counts t < counts t
    · simp [h, Nat.max_eq_right (Nat.le_of_lt h)]
    · simp [h, Nat.max_eq_left (Nat.not_lt.mp h)]

lemma runningMax_mono (counts : Nat → Nat) {s t : Nat} (h : s ≤ t) :
    runningMax counts s ≤ runningMax counts t := by
  induction t with
  | zero => simp [Nat.le_zero.mp h]
  | succ t ih =>
    rcases Nat.lt_or_ge s (t + 1) with hs | hs
    · exact le_trans (ih (by omega)) (le_max_left _ _)
    · have : s = t + 1 := by omega
      subst this
      exact le_refl _

lemma scrollState_snd_succ_of_noGrowth (counts : Nat → Nat) (t : Nat)
    (h : counts t ≤ runningMax counts t) :
    (scrollState counts (t + 1)).2 = (scrollState counts t).2 + 1 := by
  simp [scrollState, scrollStep, scrollState_fst, Nat.not_lt.mpr h]

lemma scrollState_snd_succ_of_growth (counts : Nat → Nat) (t : Nat)
    (h : runningMax counts t < counts t) :
    scrollState counts (t + 1) = (counts t, 0) := by
  simp [scrollState, scrollStep, scrollState_fst, h]

lemma stall_ge_of_noGrowth_run (counts : Nat → Nat) (t : Nat) :
    ∀ k, (∀ j, t ≤ j → j < t + k → counts j ≤ runningMax counts j) →
      k ≤ (scrollState counts (t + k)).2 := by
  intro k
  induction k with
  | zero => intro _; exact Nat.zero_le _
  | succ k ih =>
    intro hall
    have hk := ih (fun j hj hj' => hall j hj (by omega))
    have := scrollState_snd_succ_of_noGrowth counts (t + k)
      (hall (t + k) (by omega) (by omega))
    rw [show t + (k + 1) = (t + k) + 1 by omega, this]
    omega

lemma noGrowth_run_of_stall_ge (counts : Nat → Nat) :
    ∀ (t k : Nat), k ≤ (scrollState counts t).2 →
      k ≤ t ∧ ∀ j, t - k ≤ j → j < t → counts j ≤ runningMax counts j := by
  intro t
  induction t with
  | zero =>
    intro k hk
    simp only [scrollState] at hk
    have : k = 0 := by omega
    subst this
    exact ⟨le_refl 0, fun j h1 h2 => absurd h2 (by omega)⟩
  | succ t ih =>
    intro k hk
    by_cases hg : runningMax counts t < counts t
    · rw [scrollState_snd_succ_of_growth counts t hg] at hk
      have : k = 0 := by simpa using hk
      subst this
      exact ⟨Nat.zero_le _, fun j h1 h2 => absurd h2 (by omega)⟩
    · have hng : counts t ≤ runningMax counts t := Nat.not_lt.mp hg
      rw [scrollState_snd_succ_of_noGrowth counts t hng] at hk
      rcases Nat.eq_zero_or_pos k with rfl | hkpos
      · exact ⟨Nat.zero_le _, fun j h1 h2 => absurd h2 (by omega)⟩
      · obtain ⟨k', rfl⟩ : ∃ k', k = k' + 1 := ⟨k - 1, by omega⟩
        have := ih k' (by omega)
        refine ⟨by omega, fun j h1 h2 => ?_⟩
        rcases Nat.lt_or_ge j t with hj | hj
        · exact this.2 j (by omega) hj
        · have : j = t := by omega
          subst this
          exact hng

lemma scroll_to_end_reaches (counts : Nat → Nat) (T : Nat)
    (hT : max_attempts ≤ (scrollState counts T).2)
    (hmin : ∀ t', t' < T → (scrollState counts t').2 < max_attempts) :
    ∀ (fuel t : Nat), t ≤ T → T - t < fuel →
      scroll_to_end counts fuel t (scrollState counts t).1 (scrollState counts t).2 =
        some T := by
  intro fuel
  induction fuel with
  | zero => intro t _ hf; omega
  | succ f ih =>
    intro t ht hf
    rcases Nat.lt_or_ge t T with htT | htT
    · have hstall : (scrollState counts t).2 < max_attempts := hmin t htT
      have hnext : scrollStep (scrollState counts t).1 (scrollState counts t).2 (counts t) =
          scrollState counts (t + 1) := rfl
      by_cases hc : (scrollState counts t).1 < counts t
      · have h1 : (scrollState counts (t + 1)).1 = counts t := by
          rw [← hnext]; simp [scrollStep, hc]
        have h2 : (scrollState counts (t + 1)).2 = 0 := by
          rw [← hnext]; simp [scrollStep, hc]
        have := ih (t + 1) (by omega) (by omega)
        rw [h1, h2] at this
        simpa [scroll_to_end, hstall, hc] using this
      · have h1 : (scrollState counts (t + 1)).1 = (scrollState counts t).1 := by
          rw [← hnext]; simp [scrollStep, hc]
        have h2 : (scrollState counts (t + 1)).2 = (scrollState counts t).2 + 1 := by
          rw [← hnext]; simp [scrollStep, hc]
        have := ih (t + 1) (by omega) (by omega)
        rw [h1, h2] at this
        simpa [scroll_to_end, hstall, hc] using this
    · have : t = T := by omega
      subst this
      simp [scroll_to_end, Nat.not_lt.mpr hT]

/-- C8: if the observed row counts eventually stop growing past the maximum
remembered at some attempt `N`, the scroll loop terminates; it stops after
exactly `T` attempts where `T` is the first attempt count such that the
previous `max_attempts = 10` consecutive attempts all failed to exceed the
remembered maximum (`runningMax`, the value of `last_video_count`), and any
attempt observing a strictly larger count resets the stall counter to
zero. -/
theorem scrollStabilization (counts : Nat → Nat) (N : Nat)
    (hN : ∀ t, N ≤ t → counts t ≤ runningMax counts N) :
    ∃ T, scroll_to_end counts (T + 1) 0 0 0 = some T ∧
      max_attempts ≤ T ∧
      (∀ j, T - max_attempts ≤ j → j < T → counts j ≤ runningMax counts j) ∧
      (∀ t, t < T →
        ¬ (max_attempts ≤ t ∧
            ∀ j, t - max_attempts ≤ j → j < t → counts j ≤ runningMax counts j)) ∧
      (∀ t, runningMax counts t < counts t → scrollState counts (t + 1) = (counts t, 0)) := by
  classical
  have hex : ∃ t, max_attempts ≤ (scrollState counts t).2 := by
    refine ⟨N + max_attempts, ?_⟩
    apply stall_ge_of_noGrowth_run counts N max_attempts
    intro j hj _
    exact le_trans (hN j hj) (runningMax_mono counts hj)
  refine ⟨Nat.find hex, ?_, ?_, ?_, ?_, ?_⟩
  · have h0 : (scrollState counts 0).1 = 0 := rfl
    have h0' : (scrollState counts 0).2 = 0 := rfl
    have := scroll_to_end_reaches counts (Nat.find hex) (Nat.find_spec hex)
      (fun t' ht' => Nat.not_le.mp (Nat.find_min hex ht')) (Nat.find hex + 1) 0
      (Nat.zero_le _) (by omega)
    rwa [h0, h0'] at this
  · exact (noGrowth_run_of_stall_ge counts (Nat.find hex) max_attempts
      (Nat.find_spec hex)).1
  · exact (noGrowth_run_of_stall_ge counts (Nat.find hex) max_attempts
      (Nat.find_spec hex)).2
  · rintro t ht ⟨hta, hrun⟩
    have hstall : (scrollState counts t).2 < max_attempts :=
      Nat.not_le.mp (Nat.find_min hex ht)
    have : max_attempts ≤ (scrollState counts (t - max_attempts + max_attempts)).2 := by
      apply stall_ge_of_noGrowth_run counts (t - max_attempts) max_attempts
      intro j hj hj'
      exact hrun j hj (by omega)
    rw [show t - max_attempts + max_attempts = t by omega] at this
    omega
  · exact fun t ht => scrollState_snd_succ_of_growth counts t ht

/-- Witness for C8: row counts `min t 3` stop growing after attempt 4. -/
theorem scrollStabilization_witness :
    ∃ T, scroll_to_end (fun t => min t 3) (T + 1) 0 0 0 = some T ∧
      max_attempts ≤ T ∧
      (∀ j, T - max_attempts ≤ j → j < T →
        min j 3 ≤ runningMax (fun t => min t 3) j) ∧
      (∀ t, t < T →
        ¬ (max_attempts ≤ t ∧
            ∀ j, t - max_attempts ≤ j → j < t → min j 3 ≤ runningMax (fun t => min t 3) j)) ∧
      (∀ t, runningMax (fun t => min t 3) t < min t 3 →
        scrollState (fun t => min t 3) (t + 1) = (min t 3, 0)) :=
  scrollStabilization (fun t => min t 3) 4 (by
    intro t ht
    have h3 : runningMax (fun t => min t 3) 4 = 3 := by decide
    rw [h3]
    exact Nat.min_le_right t 3)

/-! ### Pipeline B: per-item filenames of `scrape_thumbnails`

For the element at 0-based enumeration index `i`, the filename is
`f"{i+1}_thumbnail.jpg"`.  To show that distinct indices give distinct
filenames we prove that `Nat.repr` (the embedding of Python's decimal
string conversion) is injective, via the list of decimal digit
characters. -/

/-- Decimal digit characters of `n`, most significant first — the list
built by `Nat.toDigitsCore` when the fuel does not run out. -/
def decChars (n : Nat) : List Char :=
  if h : n / 10 = 0 then [Nat.digitChar (n % 10)]
  else decChars (n / 10) ++ [Nat.digitChar (n % 10)]
termination_by n
decreasing_by
  exact Nat.div_lt_self (by omega) (by omega)

lemma decChars_eq (n : Nat) :
    decChars n =
      (if n / 10 = 0 then [] else decChars (n / 10)) ++ [Nat.digitChar (n % 10)] := by
  rw [decChars]
  by_cases h : n / 10 = 0 <;> simp [h]

lemma decChars_ne_nil (n : Nat) : decChars n ≠ [] := by
  rw [decChars_eq]
  simp

lemma toDigitsCore_eq_decChars :
    ∀ (fuel n : Nat) (l : List Char), n < fuel →
      Nat.toDigitsCore 10 fuel n l = decChars n ++ l := by
  intro fuel
  induction fuel with
  | zero => intro n l h; omega
  | succ f ih =>
    intro n l h
    by_cases h0 : n / 10 = 0
    · rw [decChars_eq]
      simp [Nat.toDigitsCore, h0]
    · have hn0 : 0 < n := by omega
      have hlt : n / 10 < f :=
        lt_of_lt_of_le (Nat.div_lt_self hn0 (by omega)) (by omega)
      have hstep : Nat.toDigitsCore 10 (f + 1) n l =
          Nat.toDigitsCore 10 f (n / 10) (Nat.digitChar (n % 10) :: l) := by
        simp [Nat.toDigitsCore, h0]
      rw [hstep, ih (n / 10) _ hlt, decChars_eq n, if_neg h0, List.append_assoc]
      rfl

lemma repr_data_eq_decChars (n : Nat) : (Nat.repr n).data = decChars n := by
  show (Nat.toDigits 10 n).asString.data = decChars n
  rw [Nat.toDigits, toDigitsCore_eq_decChars (n + 1) n [] (Nat.lt_succ_self n)]
  simp [List.asString]

lemma digitChar_inj_lt10 :
    ∀ a, a < 10 → ∀ b, b < 10 → Nat.digitChar a = Nat.digitChar b → a = b := by
  decide

lemma decChars_injective : ∀ m n : Nat, decChars m = decChars n → m = n := by
  intro m
  induction m using Nat.strong_induction_on with
  | _ m ih =>
    intro n heq
    have heq' := (decChars_eq m).symm.trans (heq.trans (decChars_eq n))
    obtain ⟨h1, h2⟩ := List.append_inj' heq' (by simp)
    have hdig : m % 10 = n % 10 :=
      digitChar_inj_lt10 (m % 10) (by omega) (n % 10) (by omega)
        (by simpa using h2)
    by_cases hm : m / 10 = 0 <;> by_cases hn : n / 10 = 0
    · omega
    · rw [if_pos hm, if_neg hn] at h1
      exact absurd h1.symm (decChars_ne_nil (n / 10))
    · rw [if_neg hm, if_pos hn] at h1
      exact absurd h1 (decChars_ne_nil (m / 10))
    · rw [if_neg hm, if_neg hn] at h1
      have := ih (m / 10) (Nat.div_lt_self (by omega) (by omega)) (n / 10) h1
      omega

lemma repr_injective {m n : Nat} (h : (Nat.repr m).data = (Nat.repr n).data) :
    m = n := by
  apply decChars_injective
  rw [← repr_data_eq_decChars, ← repr_data_eq_decChars, h]

/-- The filename `f"{i+1}_thumbnail.jpg"` given to the downloaded image of
the element at 0-based index `i` in the enumeration of located
thumbnails. -/
def thumbFilename (i : Nat) : String := Nat.repr (i + 1) ++ "_thumbnail.jpg"

/-- C9: every downloaded asset's filename is `<ordinal>_thumbnail.jpg` for
the element's 1-based ordinal `i + 1`, and distinct elements get distinct
filenames, so within a run no asset overwrites another. -/
theorem thumbFilename_unique (i j : Nat) (h : i ≠ j) :
    thumbFilename i = Nat.repr (i + 1) ++ "_thumbnail.jpg" ∧
    thumbFilename i ≠ thumbFilename j := by
  refine ⟨rfl, fun heq => h ?_⟩
  have hdata := congrArg String.data heq
  simp only [thumbFilename, String.data_append] at hdata
  have := repr_injective (List.append_cancel_right hdata)
  omega

/-- Witness for C9 at indices 0 and 1. -/
theorem thumbFilename_unique_witness :
    thumbFilename 0 = Nat.repr 1 ++ "_thumbnail.jpg" ∧
    thumbFilename 0 ≠ thumbFilename 1 :=
  thumbFilename_unique 0 1 (by decide)
